import Mathlib

/-!
# Verification of the PSIF exposure pipeline

Shallow embedding of the core of the PSIF repository
(`psif_lib/wind_utils.py`, `psif_lib/geo_helpers.py`, `psif_lib/processing.py`,
`scripts/calculate_PSIF.py`) and proofs about it.

Conventions used throughout:
* floating point numbers are modelled as rationals (`ℚ`) where the code only
  performs field operations and comparisons, and as reals (`ℝ`) where the code
  uses transcendental functions (trigonometry in the geodesy helpers);
* pandas `NaN` produced by failed joins or failed numeric coercion is modelled
  as `Option.none`;
* DataFrames are modelled either row-wise (a `List` of row structures) or, for
  the column-frame claims, as an ordered column store `List (String × List α)`.
-/

/-! ## Sector classifier (`psif_lib/wind_utils.py`, `assign_wind_to_sectors`) -/

/-- `sector_bins = np.array([22.5, 67.5, 112.5, 157.5, 202.5, 247.5, 292.5, 337.5])`,
written with exact fractions (`45/2 = 22.5`, …, `675/2 = 337.5`). -/
def sector_bins {α : Type} [LinearOrderedField α] : List α :=
  [45/2, 135/2, 225/2, 315/2, 405/2, 495/2, 585/2, 675/2]

/-- `np.digitize(x, bins, right := True)` for the increasing `sector_bins`:
returns the index `i` with `bins[i-1] < x ≤ bins[i]`, i.e. the number of bins
strictly below `x`. -/
def digitizeRight {α : Type} [LinearOrderedField α] (x : α) : ℕ :=
  (sector_bins.filter (fun b => decide (b < x))).length

/-- `assign_wind_to_sectors` from `wind_utils.py`:
`sectors = np.digitize(wind_direction, sector_bins, right=True) + 1` followed by
`np.where((wind_direction >= 337.5) | (wind_direction < 22.5), 1, sectors)`.
The `astype(np.int8)` result is modelled as `ℤ`. -/
def assign_wind_to_sectors {α : Type} [LinearOrderedField α] (d : α) : ℤ :=
  let sectors : ℤ := (digitizeRight d : ℤ) + 1
  if 675/2 ≤ d ∨ d < 45/2 then 1 else sectors

/-! ## Exposure model, row level (`psif_lib/processing.py`, `psif_from_pairs`)

One row of the `pairs` DataFrame inside `psif_from_pairs`.  The two families of
dwell-duration columns `duration_sector_1 … duration_sector_8` (fire side) and
`duration_sector_1_bg … duration_sector_8_bg` (receptor side) are modelled as
functions from the sector number; `bearing` is the value of
`geo.bearing_deg(latitude_fire, longitude_fire, latitude, longitude)` for the
row, which is the only input of the sector computation on line 119-122. -/

structure PairRow (α : Type) [LinearOrderedField α] where
  frp : α
  distance_km : α
  bearing : α
  duration_sector : ℤ → α
  duration_sector_bg : ℤ → α

variable {α : Type} [LinearOrderedField α]

/-- `pairs["bearing_sector"] = assign_wind_to_sectors(geo.bearing_deg(...))`. -/
def bearing_sector (r : PairRow α) : ℤ :=
  assign_wind_to_sectors r.bearing

/-- `pairs["sector_prob"]`: the fire-side dwell duration picked at the column
`"duration_sector_" + str(bearing_sector)`. -/
def sector_prob (r : PairRow α) : α :=
  r.duration_sector (bearing_sector r)

/-- `pairs["sector_prob_BGWind_SameDirection"]`: the receptor-side dwell
duration picked at `"duration_sector_" + str(bearing_sector) + "_bg"`. -/
def sector_prob_BGWind_SameDirection (r : PairRow α) : α :=
  r.duration_sector_bg (bearing_sector r)

/-- The antipodal-sector formula of line 145 of `processing.py`:
`((bearing_sector + 3) % 8) + 1` (Python `%` on nonnegative values agrees with
`Int.emod`). -/
def bearing_sector_opposite_of (s : ℤ) : ℤ :=
  ((s + 3) % 8) + 1

/-- `pairs["bearing_sector_opposite"]`. -/
def bearing_sector_opposite (r : PairRow α) : ℤ :=
  bearing_sector_opposite_of (bearing_sector r)

/-- `pairs["sector_prob_BGWind_OppositeDirection"]`: receptor-side dwell
duration at the antipodal sector (computed but not used in the total). -/
def sector_prob_BGWind_OppositeDirection (r : PairRow α) : α :=
  r.duration_sector_bg (bearing_sector_opposite r)

/-- Lines 157-158: `sector_prob_total = (sector_prob + sector_prob_BGWind_SameDirection)`
then `.clip(lower=0)`. -/
def sector_prob_total (r : PairRow α) : α :=
  max 0 (sector_prob r + sector_prob_BGWind_SameDirection r)

/-- Line 159: `psif_part = frp * sector_prob_total / distance_km ** 2`,
with no guard of any kind on `distance_km`. -/
def psif_part (r : PairRow α) : α :=
  r.frp * sector_prob_total r / r.distance_km ^ 2

/-- The concrete degenerate row used to exhibit the zero-distance behaviour:
`frp = 1`, `distance_km = 0`, bearing `0`, all dwell durations `1/4`. -/
def pair_zero_dist : PairRow ℚ :=
  ⟨1, 0, 0, fun _ => 1/4, fun _ => 1/4⟩

/-- A row with negative dwell durations (degenerate input data), used to
witness the clamp. -/
def pair_neg_durations : PairRow ℚ :=
  ⟨1, 2, 0, fun _ => -1, fun _ => -1⟩

/-! ## Geodesy helpers (`psif_lib/geo_helpers.py`)

The geodesy functions use trigonometry, so they are modelled over `ℝ`. -/

/-- `R_EARTH_KM = 6_371.0088` (mean Earth radius). -/
noncomputable def R_EARTH_KM : ℝ := 6371.0088

/-- `np.radians(x) = x * π / 180`. -/
noncomputable def radians (x : ℝ) : ℝ := x * (Real.pi / 180)

/-- `haversine_km` from `geo_helpers.py`:
`a = sin(dphi/2)^2 + cos(phi1) cos(phi2) sin(dl/2)^2`,
result `2 * R_EARTH_KM * arcsin(sqrt a)`. -/
noncomputable def haversine_km (lat1 lon1 lat2 lon2 : ℝ) : ℝ :=
  let phi1 := radians lat1
  let phi2 := radians lat2
  let dphi := phi2 - phi1
  let dl := radians lon2 - radians lon1
  let a := Real.sin (dphi / 2) ^ 2 + Real.cos phi1 * Real.cos phi2 * Real.sin (dl / 2) ^ 2
  2 * R_EARTH_KM * Real.arcsin (Real.sqrt a)

/-- `np.arctan2 y x`, modelled as the argument of the complex number `x + i y`
(both give the angle in `(-π, π]`). -/
noncomputable def arctan2 (y x : ℝ) : ℝ := Complex.arg ⟨x, y⟩

/-- Python/numpy `x % 360` on floats (result has the sign of the divisor):
`x - 360 * ⌊x / 360⌋`. -/
noncomputable def mod360 (x : ℝ) : ℝ := x - 360 * (⌊x / 360⌋ : ℝ)

/-- `bearing_deg` from `geo_helpers.py`: initial bearing from point 1 to
point 2, `(degrees(arctan2(y, x)) + 360) % 360`. -/
noncomputable def bearing_deg (lat1 lon1 lat2 lon2 : ℝ) : ℝ :=
  let phi1 := radians lat1
  let phi2 := radians lat2
  let dl := radians lon2 - radians lon1
  let y := Real.sin dl * Real.cos phi2
  let x := Real.cos phi1 * Real.sin phi2 - Real.sin phi1 * Real.cos phi2 * Real.cos dl
  mod360 (arctan2 y x * (180 / Real.pi) + 360)

/-! ## Candidate pairing (`psif_lib/processing.py`, `fire_bg_pairs`) -/

/-- A point row of the fire or receptor table (only the coordinates matter for
the pairing). -/
structure GeoPoint where
  latitude : ℝ
  longitude : ℝ

/-- `fire_bg_pairs(fires_d, bgs_d, max_km)`: Cartesian product of the two
tables (`assign(key=1).merge(..., on="key")`), then `cart.loc[dist <= max_km]`
with `distance_km` attached.  Each output element is
(fire row, receptor row, distance_km). -/
noncomputable def fire_bg_pairs (fires_d bgs_d : List GeoPoint) (max_km : ℝ) :
    List (GeoPoint × GeoPoint × ℝ) :=
  let cart := fires_d.flatMap (fun f => bgs_d.map (fun b => (f, b)))
  (cart.filter (fun p =>
      decide (haversine_km p.1.latitude p.1.longitude p.2.latitude p.2.longitude ≤ max_km))).map
    (fun p => (p.1, p.2, haversine_km p.1.latitude p.1.longitude p.2.latitude p.2.longitude))

/-! ## Temporal smoother (`psif_lib/processing.py`, `calculate_moving_average`)

Dates are modelled as integer day numbers (the `pd.Timestamp` arithmetic of
the source only ever adds whole days and compares dates).  The per-year loop of
the source builds, for each calendar year present in the data, the window
`(year_start, year_end)` from the configured month/day bounds; the embedding
takes that list of windows as an argument, everything inside the loop is
modelled faithfully. -/

/-- One input row: a `(group, acq_date, value)` record. -/
structure MARow where
  group : ℕ
  date  : ℤ
  value : ℚ
deriving DecidableEq

/-- One output row: `result_df` keeps `acq_date`, the value column, the
`moving_avg` column and the group column. -/
structure MAOut where
  group : ℕ
  date  : ℤ
  value : ℚ
  moving_avg : ℚ
deriving DecidableEq

/-- The left-merge of the complete calendar with the group's rows, filling
missing dates with 0 (`pd.merge(..., how='left')` + `fillna(0)`); the merge key
`acq_date` is unique in the group's data (the input is the per-(date, GEOID)
aggregate), so the join is a lookup. -/
def filledValue (group_rows : List MARow) (d : ℤ) : ℚ :=
  match group_rows.find? (fun r => decide (r.date = d)) with
  | some r => r.value
  | none => 0

/-- The row indices covered by pandas `rolling(window=3, min_periods=1)` at
position `j`: `max(0, j-2) .. j` (natural subtraction clips at 0). -/
def rollingWindow (j : ℕ) : List ℕ := List.range' (j - 2) (j + 1 - (j - 2))

/-- `rolling(window=3, min_periods=1).mean()` at position `j`: the mean of the
up-to-3 trailing values ending at `j`. -/
def rollingMean3 (f : ℕ → ℚ) (j : ℕ) : ℚ :=
  ((rollingWindow j).map f).sum / ((rollingWindow j).length : ℚ)

/-- `.shift(1)` followed by `fillna(0)`: position 0 gets 0, position `i ≥ 1`
gets the rolling mean at `i - 1`. -/
def movingAvg (f : ℕ → ℚ) (i : ℕ) : ℚ :=
  if i = 0 then 0 else rollingMean3 f (i - 1)

/-- The group's filled calendar series for a window starting at `ys`:
index `j` holds the (zero-filled) value of day `ys + j`. -/
def windowSeries (year_df : List MARow) (ys : ℤ) (g : ℕ) : ℕ → ℚ :=
  fun j => filledValue (year_df.filter (fun r => decide (r.group = g))) (ys + j)

/-- The body of the per-group loop: build the complete calendar
`all_dates = [ys .. ye]`, fill, smooth, and keep only the dates in
`ma_dates = [ys + 4 .. ye]` (`ma_start = year_start + pd.Timedelta(days=4)`). -/
def windowOutput (year_df : List MARow) (ys ye : ℤ) (g : ℕ) : List MAOut :=
  let n := (ye - ys).toNat
  ((List.range (n + 1)).filter (fun i => decide (4 ≤ i))).map
    (fun (i : ℕ) => MAOut.mk g (ys + (i : ℤ)) (windowSeries year_df ys g i)
               (movingAvg (windowSeries year_df ys g) i))

/-- Insertion step of the final `sort_values([group_col, 'acq_date'])`. -/
def insertSorted (x : MAOut) : List MAOut → List MAOut
  | [] => [x]
  | y :: ys =>
    if x.group < y.group ∨ (x.group = y.group ∧ x.date ≤ y.date) then x :: y :: ys
    else y :: insertSorted x ys

/-- The final `sort_values([group_col, 'acq_date'])` (a permutation of the
concatenated results). -/
def sortRows : List MAOut → List MAOut
  | [] => []
  | x :: xs => insertSorted x (sortRows xs)

/-- `calculate_moving_average`: for every window (one per calendar year in the
source), filter the data to the window, take the distinct groups appearing
there, run the per-group fill/smooth/trim, concatenate everything and sort. -/
def calculate_moving_average (df : List MARow) (windows : List (ℤ × ℤ)) : List MAOut :=
  sortRows (windows.flatMap (fun w =>
    let year_df := df.filter (fun r => decide (w.1 ≤ r.date) && decide (r.date ≤ w.2))
    ((year_df.map (fun r => r.group)).dedup).flatMap (fun g =>
      windowOutput year_df w.1 w.2 g)))

/-- The rows of `df` that fall in window `w` and belong to group `g` (the
series a retained output row is smoothed from). -/
def rowsOf (df : List MARow) (w : ℤ × ℤ) (g : ℕ) : List MARow :=
  (df.filter (fun r => decide (w.1 ≤ r.date) && decide (r.date ≤ w.2))).filter
    (fun r => decide (r.group = g))

/-! ## Spatial reaggregation (`scripts/calculate_PSIF.py`, lines 99-113)

`afact` is `pd.to_numeric(..., errors='coerce')`-coerced: a non-numeric weight
becomes `NaN`, modelled as `none`.  The left merge on `GEOID` gives a `NaN`
`zcta`/`afact` to receptors with no crosswalk entry; `groupby(['zcta',
'acq_date'])` drops rows with a `NaN` key, and `sum` skips `NaN` values. -/

/-- One row of `PSIF_with_moving` as consumed by the reaggregation:
(GEOID, acq_date, PSIF_Total). -/
structure IndexRow where
  geoid : ℕ
  date  : ℤ
  psif_total : ℚ

/-- One row of the `BG_to_ZCTA_map` crosswalk after GEOID construction and
`afact` coercion (`none` = the weight was non-numeric). -/
structure CrossRow where
  geoid : ℕ
  zcta  : ℕ
  afact : Option ℚ

/-- One row of `merged`: `zcta = none` models the `NaN` key of an unmatched
left join; `weighted_psif = none` models a `NaN` product (missing or
non-numeric weight). -/
structure MergedRow where
  geoid : ℕ
  date  : ℤ
  zcta  : Option ℕ
  weighted_psif : Option ℚ

/-- `merged = pd.merge(PSIF_with_moving, BG_to_ZCTA_map[['GEOID','zcta','afact']],
on='GEOID', how='left')` followed by
`merged['weighted_psif'] = merged['PSIF_Total'] * merged['afact']`. -/
def mergeCrosswalk (idx : List IndexRow) (cw : List CrossRow) : List MergedRow :=
  idx.flatMap (fun r =>
    let ms := cw.filter (fun c => decide (c.geoid = r.geoid))
    if ms.isEmpty then [⟨r.geoid, r.date, none, none⟩]
    else ms.map (fun c =>
      ⟨r.geoid, r.date, some c.zcta, c.afact.map (fun a => r.psif_total * a)⟩))

/-- `zcta_psif = merged.groupby(['zcta','acq_date']).agg(sum of weighted_psif)`
evaluated at the group key `(z, d)`: rows with a `NaN` (`none`) key are dropped
by `groupby`, and `sum` skips `NaN` (`none`) values. -/
def zcta_psif (idx : List IndexRow) (cw : List CrossRow) (z : ℕ) (d : ℤ) : ℚ :=
  (((mergeCrosswalk idx cw).filter
      (fun m => decide (m.zcta = some z) && decide (m.date = d))).map
    (fun m => m.weighted_psif.getD 0)).sum

/-- The reaggregated value as the spec words it (§4.8): the sum, over the
receptors having a crosswalk entry for target unit `z` with a numeric weight,
of (combined index × weight); receptors with no entry or a non-numeric weight
contribute nothing. -/
def reagg_spec (idx : List IndexRow) (cw : List CrossRow) (z : ℕ) (d : ℤ) : ℚ :=
  (idx.map (fun r =>
    if r.date = d then
      ((cw.filter (fun c => decide (c.geoid = r.geoid) && decide (c.zcta = z))).filterMap
        (fun c => c.afact.map (fun w => r.psif_total * w))).sum
    else 0)).sum

/-! ## Column-store DataFrame model (for the in-place column additions of
`psif_from_pairs` and `get_wind_at_fire`)

`pairs["name"] = col` mutates the caller's DataFrame; the embedding passes the
state explicitly: the function's output table is the state of the caller's
table after the call.  A table is an ordered list of (column name, column
values); `dfSet` replaces an existing column in place or appends a new one at
the end, exactly like a pandas column assignment. -/

/-- A DataFrame as an ordered column store. -/
abbrev Table (α : Type) := List (String × List α)

/-- Column lookup (`df["name"]`), `none` when the column is absent. -/
def dfGet {α : Type} (t : Table α) (name : String) : Option (List α) :=
  (t.find? (fun p => decide (p.1 = name))).map (fun p => p.2)

/-- Column assignment (`df["name"] = col`): overwrite the (unique) existing
column in place when present, append at the end otherwise. -/
def dfSet {α : Type} : Table α → String → List α → Table α
  | [], name, col => [(name, col)]
  | p :: ps, name, col =>
    if p.1 = name then (name, col) :: ps else p :: dfSet ps name col

/-- Column lookup with an empty default, used to feed elementwise column
arithmetic. -/
def colget {α : Type} (t : Table α) (name : String) : List α :=
  (dfGet t name).getD []

/-- Elementwise combination of four columns (numpy broadcasting over aligned
columns). -/
def zipWith4 {α β : Type} (f : α → α → α → α → β) :
    List α → List α → List α → List α → List β
  | a :: as, b :: bs, c :: cs, d :: ds => f a b c d :: zipWith4 f as bs cs ds
  | _, _, _, _ => []

/-- Elementwise combination of three columns. -/
def zipW3 {α β : Type} (f : α → α → α → β) : List α → List α → List α → List β
  | a :: as, b :: bs, c :: cs => f a b c :: zipW3 f as bs cs
  | _, _, _ => []

/-- Lines 119-122 of `processing.py`: the bearing sector of every row,
`assign_wind_to_sectors(geo.bearing_deg(latitude_fire, longitude_fire,
latitude, longitude))`. -/
noncomputable def bearing_sector_col (t : Table ℝ) : List ℤ :=
  zipWith4 (fun a b c d => assign_wind_to_sectors (bearing_deg a b c d))
    (colget t "latitude_fire") (colget t "longitude_fire")
    (colget t "latitude") (colget t "longitude")

/-- The row-wise "pick the column named by the row's sector" pattern
(`pairs.to_numpy()[np.arange(len(pairs)), col_positions]`): row `i` reads entry
`i` of the column `pre ++ toString sector ++ post`. -/
def pickBySector (t : Table ℝ) (sectors : List ℤ) (pre post : String) : List ℝ :=
  sectors.mapIdx (fun i s => (colget t (pre ++ toString s ++ post)).getD i 0)

/-- The column names `"duration_sector_" + str(s) + "_bg"` computed from a
sector column. -/
def bgNames (sectors : List ℤ) : List String :=
  sectors.map (fun s => "duration_sector_" ++ toString s ++ "_bg")

/-- The column-mutation part of `psif_from_pairs` (lines 119-159): the state of
the caller's `pairs` DataFrame after the call.  The two receptor-side lookups
are guarded by the source's `if existing_columns:` checks (when no computed
`_bg` column name exists in the table, the assignment is skipped and only a
diagnostic is printed).  The `int8` sector columns are stored through their
real-valued image, as pandas stores them in the object-typed frame. -/
noncomputable def psif_from_pairs_update (t0 : Table ℝ) : Table ℝ :=
  let sectors := bearing_sector_col t0
  let t1 := dfSet t0 "bearing_sector" (sectors.map (fun s => (s : ℝ)))
  let t2 := dfSet t1 "sector_prob" (pickBySector t1 sectors "duration_sector_" "")
  let t3 := if (bgNames sectors).any (fun n => (dfGet t2 n).isSome) then
      dfSet t2 "sector_prob_BGWind_SameDirection" (pickBySector t2 sectors "duration_sector_" "_bg")
    else t2
  let opp := sectors.map bearing_sector_opposite_of
  let t4 := dfSet t3 "bearing_sector_opposite" (opp.map (fun s => (s : ℝ)))
  let t5 := if (bgNames opp).any (fun n => (dfGet t4 n).isSome) then
      dfSet t4 "sector_prob_BGWind_OppositeDirection" (pickBySector t4 opp "duration_sector_" "_bg")
    else t4
  let t6 := dfSet t5 "sector_prob_total"
    (List.zipWith (fun a b => max 0 (a + b))
      (colget t5 "sector_prob") (colget t5 "sector_prob_BGWind_SameDirection"))
  dfSet t6 "psif_part"
    (zipW3 (fun f p d => f * p / d ^ 2)
      (colget t6 "frp") (colget t6 "sector_prob_total") (colget t6 "distance_km"))

/-- The seven columns `psif_from_pairs` adds to the caller's `pairs` table. -/
def psifNewCols : List String :=
  ["bearing_sector", "sector_prob", "sector_prob_BGWind_SameDirection",
   "bearing_sector_opposite", "sector_prob_BGWind_OppositeDirection",
   "sector_prob_total", "psif_part"]

/-- `get_wind_at_fire(ds_wind, fires, suffix)`: the xarray nearest-neighbour
selection (`ds_wind.sel(..., method="nearest")`) is abstracted into `windAt`,
giving the matched `duration_sector_i` value for a (time, lat, lon) triple;
the loop `for col in sector_cols: fires[col + suffix] = subset[col].values`
is the chain of eight column assignments. -/
def get_wind_at_fire (windAt : ℝ → ℝ → ℝ → ℕ → ℝ) (fires : Table ℝ)
    (suffix : String) : Table ℝ :=
  let ts := colget fires "acq_date"
  let las := colget fires "latitude"
  let los := colget fires "longitude"
  let put := fun (t : Table ℝ) (colname : String) (i : ℕ) =>
    dfSet t (colname ++ suffix) (zipW3 (fun ti la lo => windAt ti la lo i) ts las los)
  put (put (put (put (put (put (put (put fires
    "duration_sector_1" 1) "duration_sector_2" 2) "duration_sector_3" 3)
    "duration_sector_4" 4) "duration_sector_5" 5) "duration_sector_6" 6)
    "duration_sector_7" 7) "duration_sector_8" 8

/-- The eight columns `get_wind_at_fire` adds to the caller's table. -/
def windNewCols (suffix : String) : List String :=
  ["duration_sector_1" ++ suffix, "duration_sector_2" ++ suffix,
   "duration_sector_3" ++ suffix, "duration_sector_4" ++ suffix,
   "duration_sector_5" ++ suffix, "duration_sector_6" ++ suffix,
   "duration_sector_7" ++ suffix, "duration_sector_8" ++ suffix]

/-! ## Helper lemmas: sector classifier -/

/-- With `x` below the last bin, at most the first seven bins can lie strictly
below `x`. -/
theorem digitizeRight_le_seven {α : Type} [LinearOrderedField α] {d : α}
    (h : d < 675/2) : digitizeRight d ≤ 7 := by
  have hsplit : (sector_bins : List α) =
      [45/2, 135/2, 225/2, 315/2, 405/2, 495/2, 585/2] ++ [675/2] := rfl
  rw [digitizeRight, hsplit, List.filter_append, List.length_append]
  have h1 : (List.filter (fun b => decide (b < d))
      ([45/2, 135/2, 225/2, 315/2, 405/2, 495/2, 585/2] : List α)).length ≤ 7 := by
    have := List.length_filter_le (fun b => decide (b < d))
      ([45/2, 135/2, 225/2, 315/2, 405/2, 495/2, 585/2] : List α)
    simpa using this
  have h2 : (List.filter (fun b => decide (b < d)) ([675/2] : List α)).length = 0 := by
    simp [List.filter, not_lt.mpr h.le]
  omega

/-- The classifier always lands in 1..8, for every input direction. -/
theorem assign_wind_to_sectors_range {α : Type} [LinearOrderedField α] (d : α) :
    1 ≤ assign_wind_to_sectors d ∧ assign_wind_to_sectors d ≤ 8 := by
  unfold assign_wind_to_sectors
  dsimp only
  split
  · exact ⟨le_refl 1, by norm_num⟩
  · rename_i hcond
    push_neg at hcond
    have h7 : digitizeRight d ≤ 7 := digitizeRight_le_seven hcond.1
    omega

/-! ## Helper lemmas: geodesy -/

theorem haversine_km_self (lat lon : ℝ) : haversine_km lat lon lat lon = 0 := by
  simp [haversine_km]

theorem haversine_km_comm (lat1 lon1 lat2 lon2 : ℝ) :
    haversine_km lat1 lon1 lat2 lon2 = haversine_km lat2 lon2 lat1 lon1 := by
  simp only [haversine_km]
  have h1 : (radians lat1 - radians lat2) / 2 = -((radians lat2 - radians lat1) / 2) := by ring
  have h2 : (radians lon1 - radians lon2) / 2 = -((radians lon2 - radians lon1) / 2) := by ring
  rw [h1, h2, Real.sin_neg, Real.sin_neg]
  ring_nf

theorem haversine_km_nonneg (lat1 lon1 lat2 lon2 : ℝ) :
    0 ≤ haversine_km lat1 lon1 lat2 lon2 := by
  simp only [haversine_km]
  have hR : (0:ℝ) ≤ 2 * R_EARTH_KM := by norm_num [R_EARTH_KM]
  exact mul_nonneg hR (Real.arcsin_nonneg.mpr (Real.sqrt_nonneg _))

/-! ## Helper lemmas: candidate pairing -/

/-- Characterization of the pairs returned by `fire_bg_pairs`. -/
theorem mem_fire_bg_pairs {fires_d bgs_d : List GeoPoint} {max_km : ℝ}
    {f b : GeoPoint} {d : ℝ} :
    (f, b, d) ∈ fire_bg_pairs fires_d bgs_d max_km ↔
      f ∈ fires_d ∧ b ∈ bgs_d ∧
        d = haversine_km f.latitude f.longitude b.latitude b.longitude ∧ d ≤ max_km := by
  simp only [fire_bg_pairs, List.mem_map, List.mem_filter, List.mem_flatMap,
    decide_eq_true_eq]
  constructor
  · rintro ⟨⟨pf, pb⟩, ⟨⟨f', hf', b', hb', hpair⟩, hle⟩, heq⟩
    cases hpair
    cases heq
    exact ⟨hf', hb', rfl, hle⟩
  · rintro ⟨hf, hb, rfl, hle⟩
    exact ⟨(f, b), ⟨⟨f, hf, b, hb, rfl⟩, hle⟩, rfl⟩

/-- The pair (0°N 0°E) – (0°N 1°E) has strictly positive haversine distance. -/
theorem haversine_zero_one_pos : 0 < haversine_km 0 0 0 1 := by
  have hpi := Real.pi_pos
  have hval : haversine_km 0 0 0 1 =
      2 * R_EARTH_KM * Real.arcsin (Real.sqrt (Real.sin (Real.pi / 360) ^ 2)) := by
    simp only [haversine_km, radians, zero_mul, one_mul, sub_zero, sub_self, zero_div,
      Real.sin_zero, Real.cos_zero]
    norm_num
    left
    congr 1
    ring_nf
  rw [hval]
  have hs : 0 < Real.sin (Real.pi / 360) := by
    apply Real.sin_pos_of_pos_of_lt_pi
    · positivity
    · nlinarith
  have hsq : 0 < Real.sqrt (Real.sin (Real.pi / 360) ^ 2) :=
    Real.sqrt_pos.mpr (by positivity)
  have hR : (0:ℝ) < 2 * R_EARTH_KM := by norm_num [R_EARTH_KM]
  exact mul_pos hR (Real.arcsin_pos.mpr hsq)

/-- The same distance is bounded by 200 km (used to exercise the filter in the
keep direction). -/
theorem haversine_zero_one_le : haversine_km 0 0 0 1 ≤ 200 := by
  have hpi := Real.pi_pos
  have hpi4 := Real.pi_le_four
  have hval : haversine_km 0 0 0 1 =
      2 * R_EARTH_KM * Real.arcsin (Real.sqrt (Real.sin (Real.pi / 360) ^ 2)) := by
    simp only [haversine_km, radians, zero_mul, one_mul, sub_zero, sub_self, zero_div,
      Real.sin_zero, Real.cos_zero]
    norm_num
    left
    congr 1
    ring_nf
  rw [hval]
  have hs : 0 ≤ Real.sin (Real.pi / 360) := by
    apply le_of_lt
    apply Real.sin_pos_of_pos_of_lt_pi
    · positivity
    · nlinarith
  rw [Real.sqrt_sq hs]
  have harc : Real.arcsin (Real.sin (Real.pi / 360)) = Real.pi / 360 := by
    apply Real.arcsin_sin
    · nlinarith
    · nlinarith
  rw [harc]
  rw [R_EARTH_KM]
  nlinarith

/-! ## Claim theorems -/

/-- C1: for every sector `s ∈ {1,…,8}`, the antipodal sector
`((s + 3) % 8) + 1` computed on line 145 of `processing.py` is an integer in
`{1,…,8}` and equals the sector offset by exactly 4 positions,
`((s - 1 + 4) % 8) + 1`. -/
theorem C1_bearing_sector_opposite (s : ℤ) (h1 : 1 ≤ s) (h8 : s ≤ 8) :
    (1 ≤ bearing_sector_opposite_of s ∧ bearing_sector_opposite_of s ≤ 8) ∧
      bearing_sector_opposite_of s = ((s - 1 + 4) % 8) + 1 := by
  interval_cases s <;> decide

/-- Witness for C1 at the concrete sector 8: the antipodal sector is in range
and equals the offset-by-4 sector (both sides evaluate to 4). -/
theorem C1_bearing_sector_opposite_witness :
    ((1 ≤ bearing_sector_opposite_of 8 ∧ bearing_sector_opposite_of 8 ≤ 8) ∧
      bearing_sector_opposite_of 8 = ((8 - 1 + 4) % 8) + 1) ∧
      bearing_sector_opposite_of 8 = 4 :=
  ⟨C1_bearing_sector_opposite 8 (by decide) (by decide), by decide⟩

/-- C2: for every direction `d ∈ [0, 360)`, `assign_wind_to_sectors d` is an
integer sector in `{1,…,8}`; every `d ∈ [337.5, 360) ∪ [0, 22.5)` maps to
sector 1 (in particular `d = 0` and `d = 359.9`); and the boundary `d = 22.5`
itself maps to sector 1 (right-inclusive binning, the next bin starting
strictly above it). -/
theorem C2_assign_wind_to_sectors :
    (∀ d : ℚ, 0 ≤ d → d < 360 →
       1 ≤ assign_wind_to_sectors d ∧ assign_wind_to_sectors d ≤ 8) ∧
    (∀ d : ℚ, (675/2 ≤ d ∧ d < 360) ∨ (0 ≤ d ∧ d < 45/2) →
       assign_wind_to_sectors d = 1) ∧
    assign_wind_to_sectors (0 : ℚ) = 1 ∧
    assign_wind_to_sectors (3599/10 : ℚ) = 1 ∧
    assign_wind_to_sectors (45/2 : ℚ) = 1 := by
  refine ⟨fun d _ _ => assign_wind_to_sectors_range d, fun d hd => ?_, ?_, ?_, ?_⟩
  · unfold assign_wind_to_sectors
    dsimp only
    rw [if_pos]
    rcases hd with h | h
    · exact Or.inl h.1
    · exact Or.inr h.2
  · norm_num [assign_wind_to_sectors, digitizeRight, sector_bins, List.filter]
  · norm_num [assign_wind_to_sectors, digitizeRight, sector_bins, List.filter]
  · norm_num [assign_wind_to_sectors, digitizeRight, sector_bins, List.filter]

/-- Witness for C2 at concrete inputs: 90° is in range (it lands in sector 3),
and 350° maps to sector 1 through the wrap branch. -/
theorem C2_assign_wind_to_sectors_witness :
    (1 ≤ assign_wind_to_sectors (90 : ℚ) ∧ assign_wind_to_sectors (90 : ℚ) ≤ 8) ∧
      assign_wind_to_sectors (350 : ℚ) = 1 ∧ assign_wind_to_sectors (90 : ℚ) = 3 :=
  ⟨C2_assign_wind_to_sectors.1 90 (by norm_num) (by norm_num),
   C2_assign_wind_to_sectors.2.1 350 (by norm_num),
   by norm_num [assign_wind_to_sectors, digitizeRight, sector_bins, List.filter]⟩

/-- C3: `sector_prob_total` is exactly the clamp
`max 0 (sector_prob + sector_prob_BGWind_SameDirection)`, hence never negative
(even for negative input durations), and for every pair with `frp ≥ 0` and
`distance_km > 0` the contribution `psif_part = frp * sector_prob_total /
distance_km²` is non-negative. -/
theorem C3_sector_prob_total_clamp :
    (∀ r : PairRow ℚ,
       sector_prob_total r = max 0 (sector_prob r + sector_prob_BGWind_SameDirection r)) ∧
    (∀ r : PairRow ℚ, 0 ≤ sector_prob_total r) ∧
    (∀ r : PairRow ℚ, 0 ≤ r.frp → 0 < r.distance_km → 0 ≤ psif_part r) := by
  refine ⟨fun r => rfl, fun r => le_max_left 0 _, fun r hfrp _ => ?_⟩
  exact div_nonneg (mul_nonneg hfrp (le_max_left 0 _)) (sq_nonneg _)

/-- Witness for C3 at the concrete row with negative dwell durations
(`frp = 1`, `distance_km = 2`, both duration columns `= -1`): the clamp gives
`sector_prob_total = 0`, and `psif_part` is non-negative. -/
theorem C3_sector_prob_total_clamp_witness :
    sector_prob_total pair_neg_durations = 0 ∧ 0 ≤ psif_part pair_neg_durations :=
  ⟨by norm_num [sector_prob_total, sector_prob, sector_prob_BGWind_SameDirection,
      pair_neg_durations],
   C3_sector_prob_total_clamp.2.2 pair_neg_durations (by norm_num [pair_neg_durations])
     (by norm_num [pair_neg_durations])⟩

/-- C9: `haversine_km` vanishes on identical endpoints, is symmetric in its two
endpoints, and is always non-negative. -/
theorem C9_haversine_properties :
    (∀ lat lon : ℝ, haversine_km lat lon lat lon = 0) ∧
    (∀ lat1 lon1 lat2 lon2 : ℝ,
       haversine_km lat1 lon1 lat2 lon2 = haversine_km lat2 lon2 lat1 lon1) ∧
    (∀ lat1 lon1 lat2 lon2 : ℝ, 0 ≤ haversine_km lat1 lon1 lat2 lon2) :=
  ⟨haversine_km_self, haversine_km_comm, haversine_km_nonneg⟩

/-- C4: `fire_bg_pairs` returns exactly the cross-product pairs whose haversine
distance is `≤ max_km`, with that distance attached as `distance_km`; hence no
returned pair exceeds `max_km`, and with `max_km = 0` the two non-coincident
points (0°N 0°E) and (0°N 1°E) produce an empty result. -/
theorem C4_fire_bg_pairs_filter :
    (∀ (fires_d bgs_d : List GeoPoint) (max_km : ℝ) (f b : GeoPoint) (d : ℝ),
       (f, b, d) ∈ fire_bg_pairs fires_d bgs_d max_km ↔
         f ∈ fires_d ∧ b ∈ bgs_d ∧
           d = haversine_km f.latitude f.longitude b.latitude b.longitude ∧
           d ≤ max_km) ∧
    (∀ (fires_d bgs_d : List GeoPoint) (max_km : ℝ) (f b : GeoPoint) (d : ℝ),
       (f, b, d) ∈ fire_bg_pairs fires_d bgs_d max_km → d ≤ max_km) ∧
    fire_bg_pairs [⟨0, 0⟩] [⟨0, 1⟩] 0 = [] := by
  refine ⟨fun _ _ _ _ _ _ => mem_fire_bg_pairs,
          fun _ _ _ _ _ _ h => (mem_fire_bg_pairs.mp h).2.2.2, ?_⟩
  simp [fire_bg_pairs, List.filter, haversine_zero_one_pos.not_le]

/-- Witness for C4: the pair (0°N 0°E)–(0°N 1°E) *is* returned for
`max_km = 200` (its distance is ≤ 200 km), and the returned distance respects
the bound. -/
theorem C4_fire_bg_pairs_filter_witness :
    ((⟨0, 0⟩ : GeoPoint), (⟨0, 1⟩ : GeoPoint), haversine_km 0 0 0 1) ∈
        fire_bg_pairs [⟨0, 0⟩] [⟨0, 1⟩] 200 ∧
      haversine_km 0 0 0 1 ≤ 200 := by
  have hmem : ((⟨0, 0⟩ : GeoPoint), (⟨0, 1⟩ : GeoPoint), haversine_km 0 0 0 1) ∈
      fire_bg_pairs [⟨0, 0⟩] [⟨0, 1⟩] 200 :=
    (C4_fire_bg_pairs_filter.1 [⟨0, 0⟩] [⟨0, 1⟩] 200 ⟨0, 0⟩ ⟨0, 1⟩ _).mpr
      ⟨by simp, by simp, rfl, haversine_zero_one_le⟩
  exact ⟨hmem, C4_fire_bg_pairs_filter.2.1 [⟨0, 0⟩] [⟨0, 1⟩] 200 ⟨0, 0⟩ ⟨0, 1⟩ _ hmem⟩

/-- C6 (the code has no zero-distance policy): `psif_part` is the unguarded
quotient `frp * sector_prob_total / distance_km²` for every row — there is no
exclusion or epsilon-clamping branch; a coincident fire/receptor pair
(distance 0) passes the `fire_bg_pairs` filter and reaches the exposure
computation; and on the concrete zero-distance row with `frp = 1` and
`sector_prob_total = 1/2` the division by `0²` is performed anyway (in the
rational model `x / 0 = 0`, so the aggregate silently receives a meaningless
finite value; in the floating-point code it receives `inf`/`NaN`). -/
theorem C6_zero_distance_unguarded :
    (∀ r : PairRow ℚ,
       psif_part r = r.frp * sector_prob_total r / r.distance_km ^ 2) ∧
    ((⟨0, 0⟩ : GeoPoint), (⟨0, 0⟩ : GeoPoint), haversine_km 0 0 0 0) ∈
        fire_bg_pairs [⟨0, 0⟩] [⟨0, 0⟩] 100 ∧
    pair_zero_dist.distance_km = 0 ∧
    sector_prob_total pair_zero_dist = 1/2 ∧
    psif_part pair_zero_dist = 0 := by
  refine ⟨fun r => rfl, ?_, rfl, ?_, ?_⟩
  · exact mem_fire_bg_pairs.mpr
      ⟨by simp, by simp, rfl, by rw [haversine_km_self]; norm_num⟩
  · norm_num [sector_prob_total, sector_prob, sector_prob_BGWind_SameDirection,
      pair_zero_dist]
  · norm_num [psif_part, sector_prob_total, sector_prob,
      sector_prob_BGWind_SameDirection, pair_zero_dist]

/-! ## Helper lemmas: temporal smoother -/

theorem mem_insertSorted {x y : MAOut} {l : List MAOut} :
    y ∈ insertSorted x l ↔ y = x ∨ y ∈ l := by
  induction l with
  | nil => simp [insertSorted]
  | cons z zs ih =>
    rw [insertSorted]
    split
    · simp
    · simp only [List.mem_cons, ih]
      tauto

theorem mem_sortRows {y : MAOut} {l : List MAOut} :
    y ∈ sortRows l ↔ y ∈ l := by
  induction l with
  | nil => simp [sortRows]
  | cons x xs ih =>
    rw [sortRows, mem_insertSorted]
    simp [ih]

/-- For indices `i ≥ 4` (a fortiori `i ≥ 3`), the shifted rolling mean covers
exactly the three previous positions. -/
theorem movingAvg_eq_of_four_le (f : ℕ → ℚ) {i : ℕ} (h : 4 ≤ i) :
    movingAvg f i = (f (i - 3) + f (i - 2) + f (i - 1)) / 3 := by
  obtain ⟨m, rfl⟩ : ∃ m, i = m + 4 := ⟨i - 4, by omega⟩
  rw [movingAvg, if_neg (by omega)]
  have h1 : m + 4 - 1 = m + 3 := by omega
  have h2 : m + 3 - 2 = m + 1 := by omega
  have h3 : m + 3 + 1 - (m + 1) = 3 := by omega
  rw [rollingMean3, rollingWindow, h1, h2, h3]
  have h4 : m + 4 - 3 = m + 1 := by omega
  have h5 : m + 4 - 2 = m + 2 := by omega
  rw [h4, h5]
  simp [List.range']
  ring

/-- C5: every row produced by `calculate_moving_average` belongs to one of the
processed windows, its date lies in `[window_start + 4, window_end]`, and its
smoothed value is exactly the mean of the (zero-filled) values of the three
preceding days of its group's calendar. -/
theorem C5_moving_average (df : List MARow) (windows : List (ℤ × ℤ)) (r : MAOut)
    (hr : r ∈ calculate_moving_average df windows) :
    ∃ w ∈ windows,
      (w.1 + 4 ≤ r.date ∧ r.date ≤ w.2) ∧
      r.moving_avg =
        (filledValue (rowsOf df w r.group) (r.date - 3) +
         filledValue (rowsOf df w r.group) (r.date - 2) +
         filledValue (rowsOf df w r.group) (r.date - 1)) / 3 := by
  unfold calculate_moving_average at hr
  rw [mem_sortRows, List.mem_flatMap] at hr
  obtain ⟨w, hw, hr⟩ := hr
  dsimp only at hr
  rw [List.mem_flatMap] at hr
  obtain ⟨g, hg, hr⟩ := hr
  rw [windowOutput] at hr
  simp only [List.mem_map, List.mem_filter, List.mem_range, decide_eq_true_eq] at hr
  obtain ⟨i, ⟨hilt, hi4⟩, rfl⟩ := hr
  refine ⟨w, hw, ⟨by dsimp only; omega, by dsimp only; omega⟩, ?_⟩
  dsimp only
  rw [movingAvg_eq_of_four_le _ hi4]
  have e3 : (w.1 + (i : ℤ)) - 3 = w.1 + ((i - 3 : ℕ) : ℤ) := by omega
  have e2 : (w.1 + (i : ℤ)) - 2 = w.1 + ((i - 2 : ℕ) : ℤ) := by omega
  have e1 : (w.1 + (i : ℤ)) - 1 = w.1 + ((i - 1 : ℕ) : ℤ) := by omega
  rw [e3, e2, e1]
  rfl

/-- Witness for C5: with a single input row (group 0, day 1, value 6) and the
window `[0, 4]`, the only retained row is day 4, whose smoothed value
`2 = (6 + 0 + 0) / 3` is the mean of days 1, 2, 3. -/
theorem C5_moving_average_witness :
    ∃ w ∈ [((0 : ℤ), (4 : ℤ))],
      (w.1 + 4 ≤ (4 : ℤ) ∧ (4 : ℤ) ≤ w.2) ∧
      (2 : ℚ) =
        (filledValue (rowsOf [⟨0, 1, 6⟩] w 0) (4 - 3) +
         filledValue (rowsOf [⟨0, 1, 6⟩] w 0) (4 - 2) +
         filledValue (rowsOf [⟨0, 1, 6⟩] w 0) (4 - 1)) / 3 :=
  C5_moving_average [⟨0, 1, 6⟩] [(0, 4)] ⟨0, 4, 0, 2⟩ (by
    norm_num [calculate_moving_average, sortRows, insertSorted, windowOutput,
      windowSeries, filledValue, movingAvg, rollingMean3, rollingWindow,
      List.range', List.find?, List.dedup, List.range, List.range.loop,
      MAOut.mk.injEq])

/-- C8 counterexample: with the input `[⟨group 0, day 0, value 1⟩]` and the
window `[0, 10]`, the receptor `1` — entirely absent from the input — gets *no*
rows at all in the output of `calculate_moving_average` (while the present
receptor `0` does get rows), contradicting the claim that an absent receptor
still receives a defined zero-based moving-average series. -/
theorem C8_absent_receptor_counterexample :
    (calculate_moving_average [⟨0, 0, 1⟩] [(0, 10)]).filter
        (fun r => decide (r.group = 1)) = [] ∧
    (calculate_moving_average [⟨0, 0, 1⟩] [(0, 10)]).filter
        (fun r => decide (r.group = 0)) ≠ [] := by
  constructor <;> decide

/-- C8 amended: a receptor entirely absent from the input contributes no rows
to the output of `calculate_moving_average` — the per-window group list is
drawn from the window's data, so the zero-fill only applies to receptors with
at least one row in the window. -/
theorem C8_absent_receptor_no_rows (df : List MARow) (windows : List (ℤ × ℤ))
    (g : ℕ) (hg : ∀ r ∈ df, r.group ≠ g) :
    ∀ o ∈ calculate_moving_average df windows, o.group ≠ g := by
  intro o ho
  unfold calculate_moving_average at ho
  rw [mem_sortRows, List.mem_flatMap] at ho
  obtain ⟨w, _, ho⟩ := ho
  dsimp only at ho
  rw [List.mem_flatMap] at ho
  obtain ⟨g', hg', ho⟩ := ho
  rw [List.mem_dedup, List.mem_map] at hg'
  obtain ⟨r, hr, rfl⟩ := hg'
  have hrdf : r ∈ df := (List.mem_filter.mp hr).1
  rw [windowOutput] at ho
  simp only [List.mem_map] at ho
  obtain ⟨i, _, rfl⟩ := ho
  exact hg r hrdf

/-- Witness for C8 (amended): the concrete output row of the present
receptor 0 indeed does not carry the absent receptor 1. -/
theorem C8_absent_receptor_no_rows_witness :
    (⟨0, 4, 0, 0⟩ : MAOut).group ≠ 1 :=
  C8_absent_receptor_no_rows [⟨0, 0, 1⟩] [(0, 10)] 1 (by decide) ⟨0, 4, 0, 0⟩ (by
    norm_num [calculate_moving_average, sortRows, insertSorted, windowOutput,
      windowSeries, filledValue, movingAvg, rollingMean3, rollingWindow,
      List.range', List.find?, List.dedup, List.range, List.range.loop,
      MAOut.mk.injEq])

/-! ## Helper lemmas: spatial reaggregation -/

/-- Summing NaN-skipping values (`getD 0`) equals summing only the defined
(`some`) products. -/
theorem sum_getD_eq_sum_filterMap (q : ℚ) (l : List CrossRow) :
    ((l.map (fun c => ((c.afact.map (fun a => q * a)).getD 0))).sum) =
      ((l.filterMap (fun c => c.afact.map (fun w => q * w))).sum) := by
  induction l with
  | nil => simp
  | cons c cs ih =>
    cases hc : c.afact with
    | none => simp [List.filterMap_cons, hc, ih]
    | some a => simp [List.filterMap_cons, hc, ih]

/-- The contribution of a single index row to the grouped sum at key `(z, d)`
equals the spec-side weighted sum over its numeric crosswalk entries. -/
theorem rowContrib_eq (r : IndexRow) (cw : List CrossRow) (z : ℕ) (d : ℤ) :
    (((if (cw.filter (fun c => decide (c.geoid = r.geoid))).isEmpty
         then [(⟨r.geoid, r.date, none, none⟩ : MergedRow)]
         else (cw.filter (fun c => decide (c.geoid = r.geoid))).map (fun c =>
           ⟨r.geoid, r.date, some c.zcta, c.afact.map (fun a => r.psif_total * a)⟩)).filter
        (fun m => decide (m.zcta = some z) && decide (m.date = d))).map
      (fun m => m.weighted_psif.getD 0)).sum =
    (if r.date = d then
      ((cw.filter (fun c => decide (c.geoid = r.geoid) && decide (c.zcta = z))).filterMap
        (fun c => c.afact.map (fun w => r.psif_total * w))).sum
    else 0) := by
  split
  · rename_i hempty
    rw [List.isEmpty_iff, List.filter_eq_nil_iff] at hempty
    have h2 : cw.filter (fun c => decide (c.geoid = r.geoid) && decide (c.zcta = z)) = [] := by
      rw [List.filter_eq_nil_iff]
      intro c hcmem
      simp only [Bool.and_eq_true, decide_eq_true_eq, not_and]
      intro hgeo
      exact absurd (by simpa using hgeo) (by simpa using hempty c hcmem)
    simp [h2, List.filter]
  · rename_i hne
    by_cases hd : r.date = d
    · subst hd
      rw [List.filter_map]
      have hpt : ∀ c : CrossRow,
          ((fun m : MergedRow => decide (m.zcta = some z) && decide (m.date = r.date)) ∘
            (fun c : CrossRow =>
              (⟨r.geoid, r.date, some c.zcta,
                c.afact.map (fun a => r.psif_total * a)⟩ : MergedRow))) c =
          decide (c.zcta = z) := by
        intro c
        simp
      rw [List.filter_congr (fun c _ => hpt c)]
      rw [List.filter_filter]
      rw [List.map_map]
      rw [if_pos rfl]
      have hcomp : ((fun m : MergedRow => m.weighted_psif.getD 0) ∘
          (fun c : CrossRow =>
            (⟨r.geoid, r.date, some c.zcta,
              c.afact.map (fun a => r.psif_total * a)⟩ : MergedRow))) =
          (fun c : CrossRow => ((c.afact.map (fun a => r.psif_total * a)).getD 0)) := rfl
      rw [hcomp, sum_getD_eq_sum_filterMap]
      have hcomm : List.filter
            (fun a : CrossRow => decide (a.zcta = z) && decide (a.geoid = r.geoid)) cw =
          List.filter
            (fun c : CrossRow => decide (c.geoid = r.geoid) && decide (c.zcta = z)) cw :=
        List.filter_congr (fun c _ => Bool.and_comm _ _)
      rw [hcomm]
    · rw [if_neg hd]
      have hnone : (((cw.filter (fun c => decide (c.geoid = r.geoid))).map (fun c =>
          (⟨r.geoid, r.date, some c.zcta,
            c.afact.map (fun a => r.psif_total * a)⟩ : MergedRow))).filter
            (fun m => decide (m.zcta = some z) && decide (m.date = d))) = [] := by
        rw [List.filter_eq_nil_iff]
        intro m hm
        rw [List.mem_map] at hm
        obtain ⟨c, _, rfl⟩ := hm
        simp [hd]
      rw [hnone]
      simp

/-- The grouped, NaN-dropping sum computed by the script equals the spec-side
double sum. -/
theorem zcta_psif_eq_reagg (idx : List IndexRow) (cw : List CrossRow) (z : ℕ) (d : ℤ) :
    zcta_psif idx cw z d = reagg_spec idx cw z d := by
  induction idx with
  | nil => simp [zcta_psif, reagg_spec, mergeCrosswalk]
  | cons r rs ih =>
    unfold zcta_psif mergeCrosswalk
    rw [List.flatMap_cons, List.filter_append, List.map_append, List.sum_append]
    unfold zcta_psif mergeCrosswalk at ih
    rw [ih]
    unfold reagg_spec
    rw [List.map_cons, List.sum_cons]
    congr 1
    exact rowContrib_eq r cw z d

/-- An index row whose receptor has no (numeric-weight) crosswalk entry leaves
every `(zcta, date)` total unchanged. -/
theorem zcta_psif_invariant (idx : List IndexRow) (cw : List CrossRow) (z : ℕ) (d : ℤ)
    (r : IndexRow) (h : ∀ c ∈ cw, c.geoid = r.geoid → c.afact = none) :
    zcta_psif (r :: idx) cw z d = zcta_psif idx cw z d := by
  rw [zcta_psif_eq_reagg, zcta_psif_eq_reagg]
  unfold reagg_spec
  rw [List.map_cons, List.sum_cons]
  have hz : ((cw.filter (fun c => decide (c.geoid = r.geoid) && decide (c.zcta = z))).filterMap
      (fun c => c.afact.map (fun w => r.psif_total * w))).sum = 0 := by
    have hnil : ((cw.filter (fun c => decide (c.geoid = r.geoid) && decide (c.zcta = z))).filterMap
        (fun c => c.afact.map (fun w => r.psif_total * w))) = [] := by
      rw [List.filterMap_eq_nil_iff]
      intro c hc
      rw [List.mem_filter] at hc
      have hcc := hc.2
      rw [Bool.and_eq_true, decide_eq_true_eq, decide_eq_true_eq] at hcc
      have := h c hc.1 hcc.1
      simp [this]
    rw [hnil]
    rfl
  rw [hz]
  simp

/-- C7: the reaggregated value for every `(target unit, date)` equals the sum
over the contributing receptors of (combined index × crosswalk weight), and a
receptor with no crosswalk entry — or whose entries all have a non-numeric
(coerced-to-absent) weight — contributes nothing to any target unit's sum. -/
theorem C7_spatial_reaggregation (idx : List IndexRow) (cw : List CrossRow)
    (z : ℕ) (d : ℤ) :
    zcta_psif idx cw z d = reagg_spec idx cw z d ∧
    (∀ r : IndexRow, (∀ c ∈ cw, c.geoid = r.geoid → c.afact = none) →
       zcta_psif (r :: idx) cw z d = zcta_psif idx cw z d) :=
  ⟨zcta_psif_eq_reagg idx cw z d, fun r h => zcta_psif_invariant idx cw z d r h⟩

/-- Witness for C7: with one crosswalk row (receptor 3 → unit 99, weight ½),
adding an index row for receptor 7 — which has no crosswalk entry — leaves the
total of unit 99 on day 0 unchanged. -/
theorem C7_spatial_reaggregation_witness :
    zcta_psif [⟨7, 0, 5⟩] [⟨3, 99, some (1/2)⟩] 99 0 =
      zcta_psif [] [⟨3, 99, some (1/2)⟩] 99 0 :=
  (C7_spatial_reaggregation [] [⟨3, 99, some (1/2)⟩] 99 0).2 ⟨7, 0, 5⟩ (by
    intro c hc
    simp only [List.mem_singleton] at hc
    subst hc
    intro hgeo
    exact absurd hgeo (by norm_num))

/-! ## Helper lemmas: column store -/

theorem dfGet_dfSet_self {α : Type} (t : Table α) (n : String) (c : List α) :
    dfGet (dfSet t n c) n = some c := by
  induction t with
  | nil => simp [dfGet, dfSet, List.find?_cons_of_pos]
  | cons p ps ih =>
    rw [dfSet]
    by_cases hp : p.1 = n
    · rw [if_pos hp]
      simp [dfGet, List.find?_cons_of_pos]
    · rw [if_neg hp]
      rw [dfGet, List.find?_cons_of_neg _ (by simpa using hp)]
      exact ih

theorem dfGet_dfSet_ne {α : Type} (t : Table α) {m n : String} (h : m ≠ n)
    (c : List α) : dfGet (dfSet t n c) m = dfGet t m := by
  have hnm : ¬ (n = m) := fun hh => h hh.symm
  induction t with
  | nil => simp [dfGet, dfSet, List.find?, hnm]
  | cons p ps ih =>
    rw [dfSet]
    by_cases hp : p.1 = n
    · rw [if_pos hp]
      have hpm : ¬ (p.1 = m) := fun hh => h (by rw [← hh, hp])
      rw [dfGet, List.find?_cons_of_neg _ (by simpa using hnm)]
      rw [dfGet, List.find?_cons_of_neg _ (by simpa using hpm)]
    · rw [if_neg hp]
      by_cases hm : p.1 = m
      · rw [dfGet, List.find?_cons_of_pos _ (by simpa using hm)]
        rw [dfGet, List.find?_cons_of_pos _ (by simpa using hm)]
      · rw [dfGet, List.find?_cons_of_neg _ (by simpa using hm)]
        rw [dfGet, List.find?_cons_of_neg _ (by simpa using hm)]
        exact ih

theorem isSome_dfGet_dfSet {α : Type} (t : Table α) (n : String) (c : List α)
    {m : String} (h : (dfGet t m).isSome) : (dfGet (dfSet t n c) m).isSome := by
  by_cases hmn : m = n
  · subst hmn
    rw [dfGet_dfSet_self]
    rfl
  · rw [dfGet_dfSet_ne t hmn]
    exact h

theorem of_mem_zipWith4 {α β : Type} (f : α → α → α → α → β) :
    ∀ (as bs cs ds : List α) (x : β), x ∈ zipWith4 f as bs cs ds →
      ∃ a b c d, x = f a b c d := by
  intro as
  induction as with
  | nil => intro bs cs ds x h; cases bs <;> cases cs <;> cases ds <;> cases h
  | cons a as ih =>
    intro bs cs ds x h
    cases bs with
    | nil => cases cs <;> cases ds <;> cases h
    | cons b bs =>
      cases cs with
      | nil => cases ds <;> cases h
      | cons c cs =>
        cases ds with
        | nil => cases h
        | cons d ds =>
          replace h : x ∈ f a b c d :: zipWith4 f as bs cs ds := h
          rcases List.mem_cons.mp h with rfl | h2
          · exact ⟨a, b, c, d, rfl⟩
          · exact ih bs cs ds x h2

/-- The antipodal-sector formula stays in 1..8 for every integer input. -/
theorem bearing_sector_opposite_of_range (s : ℤ) :
    1 ≤ bearing_sector_opposite_of s ∧ bearing_sector_opposite_of s ≤ 8 := by
  unfold bearing_sector_opposite_of
  have h1 : 0 ≤ (s + 3) % 8 := Int.emod_nonneg _ (by norm_num)
  have h2 : (s + 3) % 8 < 8 := Int.emod_lt_of_pos _ (by norm_num)
  omega

/-- Every entry of a bearing-sector column lies in 1..8. -/
theorem bearing_sector_col_range (t : Table ℝ) {s : ℤ}
    (h : s ∈ bearing_sector_col t) : 1 ≤ s ∧ s ≤ 8 := by
  obtain ⟨a, b, c, d, rfl⟩ := of_mem_zipWith4 _ _ _ _ _ _ h
  exact assign_wind_to_sectors_range (bearing_deg a b c d)

/-- `psif_from_pairs` leaves every column other than the seven derived ones
unchanged in the caller's table. -/
theorem psif_from_pairs_update_preserves (t : Table ℝ) (name : String)
    (h : name ∉ psifNewCols) :
    dfGet (psif_from_pairs_update t) name = dfGet t name := by
  simp only [psifNewCols, List.mem_cons, List.not_mem_nil, or_false, not_or] at h
  obtain ⟨h1, h2, h3, h4, h5, h6, h7⟩ := h
  simp only [psif_from_pairs_update]
  rw [dfGet_dfSet_ne _ h7, dfGet_dfSet_ne _ h6]
  split
  · split
    · rw [dfGet_dfSet_ne _ h5, dfGet_dfSet_ne _ h4, dfGet_dfSet_ne _ h3,
        dfGet_dfSet_ne _ h2, dfGet_dfSet_ne _ h1]
    · rw [dfGet_dfSet_ne _ h4, dfGet_dfSet_ne _ h3,
        dfGet_dfSet_ne _ h2, dfGet_dfSet_ne _ h1]
  · split
    · rw [dfGet_dfSet_ne _ h5, dfGet_dfSet_ne _ h4,
        dfGet_dfSet_ne _ h2, dfGet_dfSet_ne _ h1]
    · rw [dfGet_dfSet_ne _ h4, dfGet_dfSet_ne _ h2, dfGet_dfSet_ne _ h1]

/-- `get_wind_at_fire` leaves every column other than the eight suffixed
duration columns unchanged in the caller's table. -/
theorem get_wind_at_fire_preserves (windAt : ℝ → ℝ → ℝ → ℕ → ℝ) (t : Table ℝ)
    (suffix : String) (name : String) (h : name ∉ windNewCols suffix) :
    dfGet (get_wind_at_fire windAt t suffix) name = dfGet t name := by
  simp only [windNewCols, List.mem_cons, List.not_mem_nil, or_false, not_or] at h
  obtain ⟨h1, h2, h3, h4, h5, h6, h7, h8⟩ := h
  simp only [get_wind_at_fire]
  rw [dfGet_dfSet_ne _ h8, dfGet_dfSet_ne _ h7, dfGet_dfSet_ne _ h6,
    dfGet_dfSet_ne _ h5, dfGet_dfSet_ne _ h4, dfGet_dfSet_ne _ h3,
    dfGet_dfSet_ne _ h2, dfGet_dfSet_ne _ h1]

/-- `get_wind_at_fire` adds all eight suffixed duration columns. -/
theorem get_wind_at_fire_adds (windAt : ℝ → ℝ → ℝ → ℕ → ℝ) (t : Table ℝ)
    (suffix : String) (name : String) (h : name ∈ windNewCols suffix) :
    (dfGet (get_wind_at_fire windAt t suffix) name).isSome := by
  simp only [windNewCols, List.mem_cons, List.not_mem_nil, or_false] at h
  simp only [get_wind_at_fire]
  rcases h with rfl | rfl | rfl | rfl | rfl | rfl | rfl | rfl
  · exact isSome_dfGet_dfSet _ _ _ (isSome_dfGet_dfSet _ _ _ (isSome_dfGet_dfSet _ _ _
      (isSome_dfGet_dfSet _ _ _ (isSome_dfGet_dfSet _ _ _ (isSome_dfGet_dfSet _ _ _
        (isSome_dfGet_dfSet _ _ _ (by rw [dfGet_dfSet_self]; rfl)))))))
  · exact isSome_dfGet_dfSet _ _ _ (isSome_dfGet_dfSet _ _ _ (isSome_dfGet_dfSet _ _ _
      (isSome_dfGet_dfSet _ _ _ (isSome_dfGet_dfSet _ _ _ (isSome_dfGet_dfSet _ _ _
        (by rw [dfGet_dfSet_self]; rfl))))))
  · exact isSome_dfGet_dfSet _ _ _ (isSome_dfGet_dfSet _ _ _ (isSome_dfGet_dfSet _ _ _
      (isSome_dfGet_dfSet _ _ _ (isSome_dfGet_dfSet _ _ _ (by rw [dfGet_dfSet_self]; rfl)))))
  · exact isSome_dfGet_dfSet _ _ _ (isSome_dfGet_dfSet _ _ _ (isSome_dfGet_dfSet _ _ _
      (isSome_dfGet_dfSet _ _ _ (by rw [dfGet_dfSet_self]; rfl))))
  · exact isSome_dfGet_dfSet _ _ _ (isSome_dfGet_dfSet _ _ _ (isSome_dfGet_dfSet _ _ _
      (by rw [dfGet_dfSet_self]; rfl)))
  · exact isSome_dfGet_dfSet _ _ _ (isSome_dfGet_dfSet _ _ _ (by rw [dfGet_dfSet_self]; rfl))
  · exact isSome_dfGet_dfSet _ _ _ (by rw [dfGet_dfSet_self]; rfl)
  · rw [dfGet_dfSet_self]; rfl

/-- With at least one pair row and the eight receptor-side duration columns
present, `psif_from_pairs` adds all seven derived columns (both
`existing_columns` checks of the source succeed). -/
theorem psif_from_pairs_update_adds (t : Table ℝ)
    (hrows : bearing_sector_col t ≠ [])
    (hbg : ∀ s ∈ Finset.Icc (1 : ℤ) 8,
      (dfGet t ("duration_sector_" ++ toString s ++ "_bg")).isSome)
    (name : String) (hmem : name ∈ psifNewCols) :
    (dfGet (psif_from_pairs_update t) name).isSome := by
  obtain ⟨s, rest, hsec⟩ := List.exists_cons_of_ne_nil hrows
  have hs : 1 ≤ s ∧ s ≤ 8 :=
    bearing_sector_col_range t (by rw [hsec]; exact List.mem_cons_self _ _)
  have hso := bearing_sector_opposite_of_range s
  simp only [psifNewCols, List.mem_cons, List.not_mem_nil, or_false] at hmem
  simp only [psif_from_pairs_update]
  split
  · split
    · rcases hmem with rfl | rfl | rfl | rfl | rfl | rfl | rfl
      · exact isSome_dfGet_dfSet _ _ _ (isSome_dfGet_dfSet _ _ _ (isSome_dfGet_dfSet _ _ _
          (isSome_dfGet_dfSet _ _ _ (isSome_dfGet_dfSet _ _ _ (isSome_dfGet_dfSet _ _ _
            (by rw [dfGet_dfSet_self]; rfl))))))
      · exact isSome_dfGet_dfSet _ _ _ (isSome_dfGet_dfSet _ _ _ (isSome_dfGet_dfSet _ _ _
          (isSome_dfGet_dfSet _ _ _ (isSome_dfGet_dfSet _ _ _ (by rw [dfGet_dfSet_self]; rfl)))))
      · exact isSome_dfGet_dfSet _ _ _ (isSome_dfGet_dfSet _ _ _ (isSome_dfGet_dfSet _ _ _
          (isSome_dfGet_dfSet _ _ _ (by rw [dfGet_dfSet_self]; rfl))))
      · exact isSome_dfGet_dfSet _ _ _ (isSome_dfGet_dfSet _ _ _ (isSome_dfGet_dfSet _ _ _
          (by rw [dfGet_dfSet_self]; rfl)))
      · exact isSome_dfGet_dfSet _ _ _ (isSome_dfGet_dfSet _ _ _ (by rw [dfGet_dfSet_self]; rfl))
      · exact isSome_dfGet_dfSet _ _ _ (by rw [dfGet_dfSet_self]; rfl)
      · rw [dfGet_dfSet_self]; rfl
    · rename_i hc2
      exfalso
      apply hc2
      rw [hsec]
      simp only [List.map_cons, bgNames, List.any_cons, Bool.or_eq_true]
      left
      exact isSome_dfGet_dfSet _ _ _ (isSome_dfGet_dfSet _ _ _ (isSome_dfGet_dfSet _ _ _
        (isSome_dfGet_dfSet _ _ _
          (hbg (bearing_sector_opposite_of s) (by rw [Finset.mem_Icc]; omega)))))
  · rename_i hc1
    exfalso
    apply hc1
    rw [hsec]
    simp only [List.map_cons, bgNames, List.any_cons, Bool.or_eq_true]
    left
    exact isSome_dfGet_dfSet _ _ _ (isSome_dfGet_dfSet _ _ _
      (hbg s (by rw [Finset.mem_Icc]; omega)))

/-- A one-row `pairs`-style table carrying the coordinate columns, `frp`,
`distance_km`, and both families of duration columns, used as the concrete
witness table. -/
noncomputable def table0 : Table ℝ :=
  [("latitude_fire", [0]), ("longitude_fire", [0]),
   ("latitude", [1]), ("longitude", [1]),
   ("acq_date", [0]), ("frp", [10]), ("distance_km", [5]),
   ("duration_sector_1", [0.3]), ("duration_sector_2", [0.1]),
   ("duration_sector_3", [0]), ("duration_sector_4", [0]),
   ("duration_sector_5", [0]), ("duration_sector_6", [0]),
   ("duration_sector_7", [0]), ("duration_sector_8", [0]),
   ("duration_sector_1_bg", [0.2]), ("duration_sector_2_bg", [0.1]),
   ("duration_sector_3_bg", [0]), ("duration_sector_4_bg", [0]),
   ("duration_sector_5_bg", [0]), ("duration_sector_6_bg", [0]),
   ("duration_sector_7_bg", [0]), ("duration_sector_8_bg", [0])]

/-- A trivial wind field for the witness. -/
noncomputable def windAt0 : ℝ → ℝ → ℝ → ℕ → ℝ := fun _ _ _ _ => 0

/-- C10: `psif_from_pairs` and `get_wind_at_fire` update the table passed to
them (modelled as explicit state passing): `psif_from_pairs` leaves every
column outside its seven derived columns unchanged and — whenever the table
has at least one row and the eight receptor-side duration columns are present
— adds all seven derived columns; `get_wind_at_fire` leaves every column
outside the eight suffixed duration columns unchanged and always adds those
eight. -/
theorem C10_in_place_column_frame (t : Table ℝ) (windAt : ℝ → ℝ → ℝ → ℕ → ℝ)
    (suffix : String) (name : String) :
    (name ∉ psifNewCols → dfGet (psif_from_pairs_update t) name = dfGet t name) ∧
    (bearing_sector_col t ≠ [] →
      (∀ s ∈ Finset.Icc (1 : ℤ) 8,
        (dfGet t ("duration_sector_" ++ toString s ++ "_bg")).isSome) →
      name ∈ psifNewCols → (dfGet (psif_from_pairs_update t) name).isSome) ∧
    (name ∉ windNewCols suffix →
      dfGet (get_wind_at_fire windAt t suffix) name = dfGet t name) ∧
    (name ∈ windNewCols suffix →
      (dfGet (get_wind_at_fire windAt t suffix) name).isSome) :=
  ⟨fun h => psif_from_pairs_update_preserves t name h,
   fun h1 h2 h3 => psif_from_pairs_update_adds t h1 h2 name h3,
   fun h => get_wind_at_fire_preserves windAt t suffix name h,
   fun h => get_wind_at_fire_adds windAt t suffix name h⟩

/-- Witness for C10 on the concrete one-row table: `frp` is preserved by both
functions, `psif_part` is added by the exposure computation, and
`duration_sector_1_bg` is added by the wind join with suffix `"_bg"`. -/
theorem C10_in_place_column_frame_witness :
    dfGet (psif_from_pairs_update table0) "frp" = dfGet table0 "frp" ∧
    (dfGet (psif_from_pairs_update table0) "psif_part").isSome ∧
    dfGet (get_wind_at_fire windAt0 table0 "_bg") "frp" = dfGet table0 "frp" ∧
    (dfGet (get_wind_at_fire windAt0 table0 "_bg") "duration_sector_1_bg").isSome :=
  ⟨(C10_in_place_column_frame table0 windAt0 "_bg" "frp").1 (by decide),
   (C10_in_place_column_frame table0 windAt0 "_bg" "psif_part").2.1
     (by decide) (by decide) (by decide),
   (C10_in_place_column_frame table0 windAt0 "_bg" "frp").2.2.1 (by decide),
   (C10_in_place_column_frame table0 windAt0 "_bg" "duration_sector_1_bg").2.2.2
     (by decide)⟩
